import Mathlib

/-!
Verification of the Monte Carlo simulation core of the pijar-dss backend
(app/core of the Python source).

The definitions below are a shallow embedding of the Python code.
Real-valued quantities are modelled by rationals wherever the source only
performs field arithmetic and comparisons, and by real numbers where
logarithms, exponentials or square roots occur.  Randomness is modelled by
explicit oracles: functions supplying the draws that the corresponding
numpy generator calls would return, consumed in the order the source
consumes them.  Fallible constructors (Python raise) return Except.
-/

namespace PijarDSS

/-! ## Numpy helpers: sorting, percentile, mean, variance -/

/-- Ascending sort of the data, as np.percentile and np.median sort before
interpolating.  Insertion sort produces the same sorted value sequence as
the sort used by numpy. -/
def npSort (l : List ℚ) : List ℚ :=
  List.insertionSort (· ≤ ·) l

/-- Linear interpolation of a sorted array at fractional position pos, as
np.percentile (default method) computes it: i = floor(pos),
frac = pos - i, result s[i] + frac * (s[i+1] - s[i]), with the last
element taken when i + 1 runs past the end of the array. -/
def interpAt (s : List ℚ) (pos : ℚ) : ℚ :=
  let i : ℕ := (⌊pos⌋).toNat
  let frac : ℚ := pos - (i : ℚ)
  if i + 1 < s.length then s.getD i 0 + frac * (s.getD (i + 1) 0 - s.getD i 0)
  else s.getD (s.length - 1) 0

/-- np.percentile(l, q) with the default linear interpolation: the sorted
data interpolated at position q / 100 * (n - 1).  np.median l equals
npPercentile l 50. -/
def npPercentile (l : List ℚ) (q : ℚ) : ℚ :=
  interpAt (npSort l) (q / 100 * ((l.length : ℚ) - 1))

/-- np.mean of a list (0 for the empty list, by rational convention 0/0 = 0). -/
def npMean (l : List ℚ) : ℚ :=
  l.sum / l.length

/-- Population variance np.var; np.std is its square root, so the source
guard np.std(x) < 1e-10 is equivalent to np.var(x) < 1e-20. -/
def npVariance (l : List ℚ) : ℚ :=
  npMean (l.map (fun x => (x - npMean l) ^ 2))

/-- np.clip(x, lo, hi). -/
def npClip (x lo hi : ℚ) : ℚ :=
  min (max x lo) hi

/-- Python round() at integer precision: round half to even. -/
def pyRound (x : ℚ) : ℤ :=
  if 2 * (x - ⌊x⌋) < 1 then ⌊x⌋
  else if 1 < 2 * (x - ⌊x⌋) then ⌊x⌋ + 1
  else if ⌊x⌋ % 2 = 0 then ⌊x⌋ else ⌊x⌋ + 1

/-! ## Path results (simulation/path.py, PathResult)

Only the fields that the audited claims touch are carried; the remaining
fields of the Python dataclass (regime path, shock timeline, customer
series, realized parameter map) do not enter any claim below. -/

/-- Result of a single path simulation, PathResult in simulation/path.py. -/
structure PathResult where
  initial_capital : ℚ
  final_capital : ℚ
  total_return : ℚ
  max_drawdown : ℚ
  is_ruin : Bool
  equity_curve : List ℚ

/-! ## Path simulator capital recursion (simulation/path.py, PathSimulator.simulate)

The monthly net flow revenue - costs does not depend on the running
capital (revenue, costs, churn and leads read only customers, pipeline and
the month's multipliers), so for one realization of the random stream it
is a fixed sequence net_flow : month index to rational.  The loop adds the
net flow, records equity[month+1], and on capital <= 0 breaks, padding all
later equity entries with the same final value. -/

/-- Capital recorded at equity index t by PathSimulator.simulate: month 0
always executes (the ruin check runs only after a month), and a month
t >= 1 executes only when the previous recorded capital is positive;
otherwise the previous (nonpositive) value is padded forward. -/
def simulate_capital (initial : ℚ) (net_flow : ℕ → ℚ) : ℕ → ℚ
  | 0 => initial
  | 1 => initial + net_flow 0
  | t + 2 =>
    let c := simulate_capital initial net_flow (t + 1)
    if c ≤ 0 then c else c + net_flow (t + 1)

/-- Equity curve of length H + 1 produced by PathSimulator.simulate. -/
def simulate_equity_curve (initial : ℚ) (net_flow : ℕ → ℚ) (H : ℕ) : List ℚ :=
  (List.range (H + 1)).map (simulate_capital initial net_flow)

/-- Monthly costs, BusinessModel.compute_costs: dev burn during the
development phase, overhead plus per-customer cost afterwards, both scaled
by the cost multiplier. -/
def compute_costs (customers : ℕ) (is_dev_phase : Bool) (dev_burn : ℚ)
    (op_overhead cost_per_customer cost_mult : ℚ) : ℚ :=
  if is_dev_phase then dev_burn * cost_mult
  else (op_overhead + (customers : ℚ) * cost_per_customer) * cost_mult

/-- Net monthly flow of a development-phase month: revenue is 0 and costs
come from compute_costs with is_dev_phase true. -/
def dev_phase_net_flow (dev_burn cost_mult : ℚ) : ℚ :=
  0 - compute_costs 0 true dev_burn 0 0 cost_mult

/-! ## Risk analytics (analytics/risk.py, RiskAnalyzer) -/

/-- Losses, one per path: initial capital minus final capital (positive
means loss), RiskAnalyzer._extract_arrays. -/
def losses_of (paths : List PathResult) : List ℚ :=
  paths.map (fun p => p.initial_capital - p.final_capital)

/-- RiskAnalyzer.compute_var: the percentile of the loss distribution at
confidence * 100. -/
def compute_var (paths : List PathResult) (confidence : ℚ) : ℚ :=
  npPercentile (losses_of paths) (confidence * 100)

/-- RiskAnalyzer.compute_cvar: mean of the losses at or above the VaR
threshold (the tail mask losses >= var_threshold). -/
def compute_cvar (paths : List PathResult) (confidence : ℚ) : ℚ :=
  let var_threshold := npPercentile (losses_of paths) (confidence * 100)
  npMean ((losses_of paths).filter (fun x => decide (var_threshold ≤ x)))

/-- RiskAnalyzer.compute_survival_analysis: fraction of paths whose equity
at the given month is strictly positive. -/
def survival_fraction (paths : List PathResult) (month : ℕ) : ℚ :=
  ((paths.filter (fun p => decide (0 < p.equity_curve.getD month 0))).length : ℚ)
    / (paths.length : ℚ)

/-! ## Premortem classification (analytics/premortem.py) and the engine
placeholder count (simulation/engine.py, aggregate_results) -/

/-- PremortemAnalyzer._classify_paths failure predicate: ruin or total
return at or below the failure threshold (default -20). -/
def is_failed (failure_threshold : ℚ) (p : PathResult) : Bool :=
  p.is_ruin || decide (p.total_return ≤ failure_threshold)

/-- Number of failed paths in PremortemAnalyzer._classify_paths. -/
def premortem_n_failed (failure_threshold : ℚ) (paths : List PathResult) : ℕ :=
  (paths.filter (is_failed failure_threshold)).length

/-- Number of successful paths in PremortemAnalyzer._classify_paths. -/
def premortem_n_success (failure_threshold : ℚ) (paths : List PathResult) : ℕ :=
  (paths.filter (fun p => !(is_failed failure_threshold p))).length

/-- The failure_count reported by SimulationEngine.aggregate_results in its
premortem placeholder: np.sum(is_ruin) + np.sum(returns < -20). -/
def engine_failure_count (paths : List PathResult) : ℕ :=
  (paths.filter (fun p => p.is_ruin)).length
    + (paths.filter (fun p => decide (p.total_return < -20))).length

/-! ## Risk events (simulation/risk_events.py) and the month step ordering
of the path simulator (simulation/path.py lines 205-260) -/

/-- Impact channel of a shock. -/
inductive ImpactType
  | adoption
  | churn
  | revenue
  | cost
deriving DecidableEq

/-- ActiveShock dataclass of risk_events.py. -/
structure ActiveShock where
  event_name : String
  impact_type : ImpactType
  severity : ℚ
  recovery_rate : ℚ
  start_month : ℕ

/-- RiskEventManager.get_multipliers: per channel, the product of the
severities of the active shocks on that channel, starting from 1. -/
def get_multipliers (shocks : List ActiveShock) : ImpactType → ℚ :=
  fun ch => shocks.foldl (fun acc s => if s.impact_type = ch then acc * s.severity else acc) 1

/-- RiskEventManager.process_recoveries: each active shock is visited in
list order with one uniform draw; the oracle recovers gives the outcome
rng.random() < recovery_rate of the i-th visited shock.  A recovered shock
is removed; an unrecovered one drifts toward severity 1 by
severity + (1 - severity) * 0.2. -/
def process_recoveries : List ActiveShock → (ℕ → Bool) → ℕ → List ActiveShock
  | [], _, _ => []
  | s :: rest, recovers, i =>
    if recovers i then process_recoveries rest recovers (i + 1)
    else { s with severity := s.severity + (1 - s.severity) * (2/10) }
      :: process_recoveries rest recovers (i + 1)

/-- One month of risk-event handling and business operations, exactly in
the order of PathSimulator.simulate: check_for_arrivals appends the newly
arrived shocks (the arrivals argument, the outcome of the Poisson and
severity draws of this month) to the active list, process_recoveries then
runs on the whole list, get_multipliers is read from the result, the
regime and risk multipliers are combined per channel, and the business
operations (the operations argument: steps 5a-5e of the source) consume
the combined multipliers. -/
def month_risk_step {α : Type} (active arrivals : List ActiveShock) (recovers : ℕ → Bool)
    (regime_mult : ImpactType → ℚ) (operations : (ImpactType → ℚ) → α) :
    α × List ActiveShock :=
  let after_arrivals := active ++ arrivals
  let after_recoveries := process_recoveries after_arrivals recovers 0
  let risk_multipliers := get_multipliers after_recoveries
  let combined := fun ch => regime_mult ch * risk_multipliers ch
  (operations combined, after_recoveries)

/-! ## Business model pipeline (simulation/business_model.py) -/

/-- PipelineDeal dataclass. -/
structure PipelineDeal where
  entry_month : ℕ
  close_month : ℕ
  will_convert : Bool
  contract_value : ℚ
  is_bumn : Bool

/-- BusinessState dataclass (the monthly bookkeeping lists are omitted;
no audited claim reads them). -/
structure BusinessState where
  capital : ℚ
  customers : ℕ
  pipeline : List PipelineDeal
  peak_capital : ℚ
  max_drawdown : ℚ
  breakeven_month : ℤ

/-- BusinessModel.process_pipeline_closings: deals with close_month <=
month and will_convert close and are counted as new customers; the
pipeline keeps exactly the deals with close_month > month or not
will_convert. -/
def process_pipeline_closings (state : BusinessState) (month : ℕ) :
    BusinessState × ℕ :=
  let closing_deals := state.pipeline.filter
    (fun d => decide (d.close_month ≤ month) && d.will_convert)
  let new_pipeline := state.pipeline.filter
    (fun d => decide (month < d.close_month) || !d.will_convert)
  let new_customers := closing_deals.length
  ({ state with pipeline := new_pipeline,
                customers := state.customers + new_customers }, new_customers)

/-! ## Distributions (app/core/distributions) -/

/-- TriangularDistribution parameters (validated floats). -/
structure TriangularDistribution where
  min_val : ℚ
  mode : ℚ
  max_val : ℚ

/-- TriangularDistribution.__init__: raises when min_val > mode or
mode > max_val, before any sampling. -/
def TriangularDistribution.init (min_val mode max_val : ℚ) :
    Except String TriangularDistribution :=
  if mode < min_val then .error "min_val must be <= mode"
  else if max_val < mode then .error "mode must be <= max_val"
  else .ok ⟨min_val, mode, max_val⟩

/-- Degenerate test of triangular.py: (max_val - min_val) < 1e-10. -/
def TriangularDistribution.is_degenerate (d : TriangularDistribution) : Bool :=
  decide (d.max_val - d.min_val < 1 / 10 ^ 10)

/-- BetaDistribution parameters. -/
structure BetaDistribution where
  alpha : ℚ
  beta : ℚ

/-- BetaDistribution.__init__: raises when alpha <= 0 or beta <= 0. -/
def BetaDistribution.init (alpha beta : ℚ) : Except String BetaDistribution :=
  if alpha ≤ 0 then .error "alpha must be > 0"
  else if beta ≤ 0 then .error "beta must be > 0"
  else .ok ⟨alpha, beta⟩

/-- GammaDistribution parameters. -/
structure GammaDistribution where
  shape : ℚ
  scale : ℚ

/-- GammaDistribution.__init__: raises when shape <= 0 or scale <= 0. -/
def GammaDistribution.init (shape scale : ℚ) : Except String GammaDistribution :=
  if shape ≤ 0 then .error "shape must be > 0"
  else if scale ≤ 0 then .error "scale must be > 0"
  else .ok ⟨shape, scale⟩

/-- GammaDistribution.from_mean_cv: k = 1 / cv^2 and theta = mean * cv^2,
then the validating constructor. -/
def GammaDistribution.from_mean_cv (mean cv : ℚ) : Except String GammaDistribution :=
  if mean ≤ 0 then .error "mean must be > 0"
  else if cv ≤ 0 then .error "cv must be > 0"
  else GammaDistribution.init (1 / cv ^ 2) (mean * cv ^ 2)

/-- LogNormalDistribution parameters in log space; from_mean_cv produces
irrational values, so the fields live in the reals. -/
structure LogNormalDistribution where
  mu : ℝ
  sigma : ℝ

/-- LogNormalDistribution.__init__: raises when sigma <= 0. -/
noncomputable def LogNormalDistribution.init (mu sigma : ℝ) :
    Except String LogNormalDistribution :=
  if sigma ≤ 0 then .error "sigma must be > 0"
  else .ok ⟨mu, sigma⟩

/-- LogNormalDistribution.from_mean_cv: sigma^2 = log(1 + cv^2),
mu = log mean - sigma^2 / 2, then the validating constructor. -/
noncomputable def LogNormalDistribution.from_mean_cv (mean cv : ℚ) :
    Except String LogNormalDistribution :=
  if mean ≤ 0 then .error "mean must be > 0"
  else if cv ≤ 0 then .error "cv must be > 0"
  else
    LogNormalDistribution.init
      (Real.log (mean : ℝ) - Real.log (1 + (cv : ℝ) ^ 2) / 2)
      (Real.sqrt (Real.log (1 + (cv : ℝ) ^ 2)))

/-- Modelled from the spec: numpy rng.triangular is library code outside
this repository; per the spec it samples by the closed-form inverse CDF,
mapping a uniform draw u in [0, 1] to
min + sqrt(u (max - min)(mode - min)) below the mode position and to
max - sqrt((1 - u)(max - min)(max - mode)) above it. -/
noncomputable def triangular_inv_cdf (d : TriangularDistribution) (u : ℝ) : ℝ :=
  let a : ℝ := (d.min_val : ℝ)
  let c : ℝ := (d.mode : ℝ)
  let b : ℝ := (d.max_val : ℝ)
  if u ≤ (c - a) / (b - a) then a + Real.sqrt (u * (b - a) * (c - a))
  else b - Real.sqrt ((1 - u) * (b - a) * (b - c))

/-- TriangularDistribution.sample on one uniform draw: the degenerate case
(max - min < 1e-10) returns the point mass np.full(size, mode); otherwise
the inverse-CDF draw. -/
noncomputable def TriangularDistribution.sample (d : TriangularDistribution) (u : ℝ) : ℝ :=
  if d.is_degenerate then (d.mode : ℝ) else triangular_inv_cdf d u

/-! ## Distribution specifications and the factory
(models/parameters.py and engine.create_distribution) -/

/-- DistributionSpec of models/parameters.py: a tagged type with the
parameter values that create_distribution reads from the params map (the
lognormal tag splits on whether mean and cv are both present). -/
inductive DistributionSpec
  | triangular (min mode max : ℚ)
  | beta (alpha beta : ℚ)
  | lognormal_mu_sigma (mu sigma : ℚ)
  | lognormal_mean_cv (mean cv : ℚ)
  | gamma (shape scale : ℚ)
  | fixed (value : ℚ)

/-- Constructed distribution object, the BaseDistribution union. -/
inductive BaseDistribution
  | triangular (d : TriangularDistribution)
  | beta (d : BetaDistribution)
  | lognormal (d : LogNormalDistribution)
  | gamma (d : GammaDistribution)

/-- engine.create_distribution: the factory from a specification to a
distribution object; a fixed value becomes the degenerate triangular
with min = mode = max = value. -/
noncomputable def create_distribution : DistributionSpec → Except String BaseDistribution
  | .triangular mn md mx => (TriangularDistribution.init mn md mx).map .triangular
  | .beta a b => (BetaDistribution.init a b).map .beta
  | .lognormal_mu_sigma mu sigma =>
    (LogNormalDistribution.init (mu : ℝ) (sigma : ℝ)).map .lognormal
  | .lognormal_mean_cv mean cv => (LogNormalDistribution.from_mean_cv mean cv).map .lognormal
  | .gamma sh sc => (GammaDistribution.init sh sc).map .gamma
  | .fixed v => (TriangularDistribution.init v v v).map .triangular

/-! ## Engine input model (models/parameters.py, SimulationInput) -/

/-- CapitalDevParams. -/
structure CapitalDevParams where
  initial_capital : DistributionSpec
  dev_duration : DistributionSpec
  dev_burn : DistributionSpec

/-- SalesParams. -/
structure SalesParams where
  leads_per_month : DistributionSpec
  win_rate_bumn : DistributionSpec
  win_rate_open : DistributionSpec
  bumn_share : ℚ
  sales_cycle_months : DistributionSpec

/-- PricingParams; size_distribution is the weight map over the three
contract size buckets. -/
structure PricingParams where
  contract_small : DistributionSpec
  contract_medium : DistributionSpec
  contract_large : DistributionSpec
  size_distribution : List (String × ℚ)

/-- RetentionCostParams. -/
structure RetentionCostParams where
  churn_rate : DistributionSpec
  op_overhead : ℚ
  cost_per_customer : ℚ

/-- SimulationConfig. -/
structure SimulationConfig where
  n_simulations : ℕ
  time_horizon : ℕ
  seed : Option ℤ
  enable_regime_switching : Bool
  enable_risk_events : Bool

/-- Risk event configuration of models/parameters.py. -/
structure RiskEventSpec where
  name : String
  intensity : ℚ
  impact_type : ImpactType
  severity_min : ℚ
  severity_mode : ℚ
  severity_max : ℚ
  recovery_rate : ℚ
  start_month : ℕ
  end_month : Option ℕ

/-- SimulationInput, the top-level request the engine consumes. -/
structure SimulationInput where
  capital_dev : CapitalDevParams
  sales : SalesParams
  pricing : PricingParams
  retention_costs : RetentionCostParams
  risk_events : List RiskEventSpec
  config : SimulationConfig

/-! ## Engine distribution table and per-path construction
(simulation/engine.py) -/

/-- The distributions dict built by SimulationEngine._create_distributions,
one field per key. -/
structure SimDistributions where
  initial_capital : BaseDistribution
  dev_duration : BaseDistribution
  dev_burn : BaseDistribution
  leads_per_month : BaseDistribution
  win_rate_bumn : BaseDistribution
  win_rate_open : BaseDistribution
  sales_cycle : BaseDistribution
  contract_small : BaseDistribution
  contract_medium : BaseDistribution
  contract_large : BaseDistribution
  churn_rate : BaseDistribution

/-- SimulationEngine._create_distributions: every entry of the dict through
the create_distribution factory. -/
noncomputable def create_distributions (input : SimulationInput) :
    Except String SimDistributions := do
  let initial_capital ← create_distribution input.capital_dev.initial_capital
  let dev_duration ← create_distribution input.capital_dev.dev_duration
  let dev_burn ← create_distribution input.capital_dev.dev_burn
  let leads_per_month ← create_distribution input.sales.leads_per_month
  let win_rate_bumn ← create_distribution input.sales.win_rate_bumn
  let win_rate_open ← create_distribution input.sales.win_rate_open
  let sales_cycle ← create_distribution input.sales.sales_cycle_months
  let contract_small ← create_distribution input.pricing.contract_small
  let contract_medium ← create_distribution input.pricing.contract_medium
  let contract_large ← create_distribution input.pricing.contract_large
  let churn_rate ← create_distribution input.retention_costs.churn_rate
  pure { initial_capital, dev_duration, dev_burn, leads_per_month, win_rate_bumn,
         win_rate_open, sales_cycle, contract_small, contract_medium,
         contract_large, churn_rate }

/-- SampledParameters dataclass of engine.py. -/
structure SampledParameters where
  initial_capital : ℚ
  dev_duration : ℤ
  dev_burn : ℚ
  leads_per_month : ℚ
  win_rate_bumn : ℚ
  win_rate_open : ℚ
  bumn_share : ℚ
  annual_churn_rate : ℚ
  contract_small : ℚ
  contract_medium : ℚ
  contract_large : ℚ

/-- SimulationEngine._sample_parameters: one sample call per listed dict
entry, in source order.  The oracle draw d i is the value the i-th rng
sample call returns when sampling from distribution d; the sales_cycle
entry of the dict is never passed to it. -/
def sample_parameters (dists : SimDistributions)
    (draw : BaseDistribution → ℕ → ℚ) (bumn_share : ℚ) : SampledParameters :=
  { initial_capital := draw dists.initial_capital 0
    dev_duration := pyRound (draw dists.dev_duration 1)
    dev_burn := draw dists.dev_burn 2
    leads_per_month := draw dists.leads_per_month 3
    win_rate_bumn := npClip (draw dists.win_rate_bumn 4) 0 1
    win_rate_open := npClip (draw dists.win_rate_open 5) 0 1
    bumn_share := bumn_share
    annual_churn_rate := npClip (draw dists.churn_rate 6) 0 1
    contract_small := draw dists.contract_small 7
    contract_medium := draw dists.contract_medium 8
    contract_large := draw dists.contract_large 9 }

/-- BusinessModel constructor state (business_model.py __init__): the
inputs plus the normalized size probabilities. -/
structure BusinessModel where
  contract_distributions : List (String × LogNormalDistribution)
  size_weights : List (String × ℚ)
  sales_cycle_dist : GammaDistribution
  op_overhead : ℚ
  cost_per_customer : ℚ
  size_probs : List (String × ℚ)

/-- BusinessModel.__init__: stores the inputs and normalizes the size
weights by their total. -/
def BusinessModel.init (contract_distributions : List (String × LogNormalDistribution))
    (size_weights : List (String × ℚ)) (sales_cycle_dist : GammaDistribution)
    (op_overhead cost_per_customer : ℚ) : BusinessModel :=
  let total := (size_weights.map Prod.snd).sum
  { contract_distributions, size_weights, sales_cycle_dist, op_overhead,
    cost_per_customer,
    size_probs := size_weights.map (fun kv => (kv.1, kv.2 / total)) }

/-- The business model built inside SimulationEngine._run_single_path
(lines 223-238): contract distributions LogNormal.from_mean_cv of the
per-path sampled means with cv 0.1, and the sales cycle distribution
hardcoded to Gamma.from_mean_cv(mean=5.0, cv=0.3). -/
noncomputable def build_business_model (input : SimulationInput)
    (params : SampledParameters) : Except String BusinessModel := do
  let small ← LogNormalDistribution.from_mean_cv params.contract_small (1/10)
  let medium ← LogNormalDistribution.from_mean_cv params.contract_medium (1/10)
  let large ← LogNormalDistribution.from_mean_cv params.contract_large (1/10)
  let sales_cycle_dist ← GammaDistribution.from_mean_cv 5 (3/10)
  pure (BusinessModel.init
    [("small", small), ("medium", medium), ("large", large)]
    input.pricing.size_distribution sales_cycle_dist
    input.retention_costs.op_overhead input.retention_costs.cost_per_customer)

/-! ## Stochastic processes (processes/gbm.py and processes/jump_diffusion.py) -/

/-- GeometricBrownianMotion state after __init__, with the precomputed
log-space terms. -/
structure GeometricBrownianMotion where
  drift : ℝ
  volatility : ℝ
  dt : ℝ
  drift_term : ℝ
  vol_term : ℝ

/-- GeometricBrownianMotion.__init__: raises when volatility < 0 and
precomputes (drift - volatility^2 / 2) * dt and volatility * sqrt(dt). -/
noncomputable def GeometricBrownianMotion.init (drift volatility dt : ℝ) :
    Except String GeometricBrownianMotion :=
  if volatility < 0 then .error "volatility must be >= 0"
  else .ok { drift, volatility, dt,
             drift_term := (drift - (1/2) * volatility ^ 2) * dt,
             vol_term := volatility * Real.sqrt dt }

/-- JumpDiffusionProcess state after __init__, holding the internal GBM. -/
structure JumpDiffusionProcess where
  drift : ℝ
  volatility : ℝ
  jump_intensity : ℝ
  jump_mean : ℝ
  jump_std : ℝ
  dt : ℝ
  gbm : GeometricBrownianMotion

/-- JumpDiffusionProcess.__init__: computes the expected jump factor
exp(jump_mean + jump_std^2 / 2), the drift adjustment
jump_intensity * (factor - 1), and constructs the internal GBM with the
compensated drift. -/
noncomputable def JumpDiffusionProcess.init
    (drift volatility jump_intensity jump_mean jump_std dt : ℝ) :
    Except String JumpDiffusionProcess := do
  let expected_jump_factor := Real.exp (jump_mean + (1/2) * jump_std ^ 2)
  let drift_adjustment := jump_intensity * (expected_jump_factor - 1)
  let adjusted_drift := drift - drift_adjustment
  let g ← GeometricBrownianMotion.init adjusted_drift volatility dt
  pure { drift, volatility, jump_intensity, jump_mean, jump_std, dt, gbm := g }

/-! ## Tornado sensitivity (analytics/sensitivity.py, compute_tornado) -/

/-- Slope of scipy.stats.linregress: centered cross moment over centered
second moment of x. -/
def linregress_slope (x y : List ℚ) : ℚ :=
  (((x.zip y).map (fun p => (p.1 - npMean x) * (p.2 - npMean y))).sum)
    / ((x.map (fun v => (v - npMean x) ^ 2)).sum)

/-- Intercept of scipy.stats.linregress. -/
def linregress_intercept (x y : List ℚ) : ℚ :=
  npMean y - linregress_slope x y * npMean x

/-- TornadoItem of sensitivity.py (the numeric fields). -/
structure TornadoItem where
  low_value : ℚ
  base_value : ℚ
  high_value : ℚ
  output_at_low : ℚ
  output_at_base : ℚ
  output_at_high : ℚ
  swing : ℚ
  asymmetry : ℚ

/-- SensitivityAnalyzer.compute_tornado for one parameter column x against
the outputs: base = median, low = p10, high = p90 of the realized values,
outputs estimated by the univariate linear model, swing the absolute
output difference and asymmetry (upside - downside) / (swing + 1e-10). -/
def compute_tornado_item (x outputs : List ℚ) : TornadoItem :=
  let base_value := npPercentile x 50
  let low_value := npPercentile x 10
  let high_value := npPercentile x 90
  let slope := linregress_slope x outputs
  let intercept := linregress_intercept x outputs
  let output_at_low := intercept + slope * low_value
  let output_at_high := intercept + slope * high_value
  let output_at_base := intercept + slope * base_value
  let swing := |output_at_high - output_at_low|
  let upside := output_at_high - output_at_base
  let downside := output_at_base - output_at_low
  let asymmetry := (upside - downside) / (swing + 1 / 10 ^ 10)
  { low_value, base_value, high_value, output_at_low, output_at_base,
    output_at_high, swing, asymmetry }

/-! ## Theorems -/

/-- Counting a list by two boolean predicates equals counting by their
disjunction plus counting by their conjunction (inclusion-exclusion on
multiplicities). -/
theorem countP_add_countP {α : Type} (p q : α → Bool) (l : List α) :
    l.countP p + l.countP q
      = l.countP (fun a => p a || q a) + l.countP (fun a => p a && q a) := by
  induction l with
  | nil => simp
  | cons a t ih =>
    by_cases hp : p a <;> by_cases hq : q a <;>
      simp [List.countP_cons, hp, hq] <;> omega

/-- C6: for every jump-diffusion process, the internal GBM is constructed
with the compensated drift mu - lambda * (exp(m_J + s_J^2 / 2) - 1), so the
jump compensation term restores the original drift mu exactly. -/
theorem jump_diffusion_compensated_drift
    (drift volatility jump_intensity jump_mean jump_std dt : ℝ) :
    ((JumpDiffusionProcess.init drift volatility jump_intensity jump_mean jump_std dt).map
        (fun jd => jd.gbm.drift)
      = (GeometricBrownianMotion.init
          (drift - jump_intensity * (Real.exp (jump_mean + jump_std ^ 2 / 2) - 1))
          volatility dt).map (fun g => g.drift))
    ∧ (drift - jump_intensity * (Real.exp (jump_mean + jump_std ^ 2 / 2) - 1))
        + jump_intensity * (Real.exp (jump_mean + jump_std ^ 2 / 2) - 1) = drift := by
  constructor
  · have harg : jump_mean + (1/2) * jump_std ^ 2 = jump_mean + jump_std ^ 2 / 2 := by ring
    unfold JumpDiffusionProcess.init GeometricBrownianMotion.init
    rw [harg]
    split_ifs with h <;> rfl
  · ring

/-- C8: each distribution constructor succeeds exactly when its parameters
satisfy the support constraints, and raises otherwise; the validation is a
pure function of the parameters, performed before any random draw (the
constructors take no randomness oracle). -/
theorem distribution_constructors_validate (mn md mx a b mu sigma sh sc : ℚ) :
    ((TriangularDistribution.init mn md mx).isOk = true ↔ (mn ≤ md ∧ md ≤ mx))
    ∧ ((BetaDistribution.init a b).isOk = true ↔ (0 < a ∧ 0 < b))
    ∧ ((LogNormalDistribution.init (mu : ℝ) (sigma : ℝ)).isOk = true ↔ 0 < sigma)
    ∧ ((GammaDistribution.init sh sc).isOk = true ↔ (0 < sh ∧ 0 < sc)) := by
  refine ⟨?_, ?_, ?_, ?_⟩
  · unfold TriangularDistribution.init
    split_ifs with h1 h2
    · exact iff_of_false (by simp [Except.isOk, Except.toBool])
        (fun hc => absurd h1 (not_lt.mpr hc.1))
    · exact iff_of_false (by simp [Except.isOk, Except.toBool])
        (fun hc => absurd h2 (not_lt.mpr hc.2))
    · exact iff_of_true (by simp [Except.isOk, Except.toBool])
        ⟨not_lt.mp h1, not_lt.mp h2⟩
  · unfold BetaDistribution.init
    split_ifs with h1 h2
    · exact iff_of_false (by simp [Except.isOk, Except.toBool])
        (fun hc => absurd h1 (not_le.mpr hc.1))
    · exact iff_of_false (by simp [Except.isOk, Except.toBool])
        (fun hc => absurd h2 (not_le.mpr hc.2))
    · exact iff_of_true (by simp [Except.isOk, Except.toBool])
        ⟨not_le.mp h1, not_le.mp h2⟩
  · unfold LogNormalDistribution.init
    split_ifs with h1
    · refine iff_of_false (by simp [Except.isOk, Except.toBool]) (fun hc => absurd h1 ?_)
      rw [not_le]
      exact_mod_cast hc
    · refine iff_of_true (by simp [Except.isOk, Except.toBool]) ?_
      have := not_le.mp h1
      exact_mod_cast this
  · unfold GammaDistribution.init
    split_ifs with h1 h2
    · exact iff_of_false (by simp [Except.isOk, Except.toBool])
        (fun hc => absurd h1 (not_le.mpr hc.1))
    · exact iff_of_false (by simp [Except.isOk, Except.toBool])
        (fun hc => absurd h2 (not_le.mpr hc.2))
    · exact iff_of_true (by simp [Except.isOk, Except.toBool])
        ⟨not_le.mp h1, not_le.mp h2⟩

/-- C7 (amended): the premortem classification partitions the corpus with
failure = ruin or return at or below the threshold, and its failed count is
exactly the number of paths satisfying that predicate; the engine's
aggregate_results placeholder failure_count instead adds the ruin count and
the strict below-threshold count, so it counts a path satisfying both
twice (inclusion-exclusion). -/
theorem premortem_partition_and_engine_count (θ : ℚ) (paths : List PathResult) :
    premortem_n_failed θ paths + premortem_n_success θ paths = paths.length
    ∧ premortem_n_failed θ paths
        = paths.countP (fun p => p.is_ruin || decide (p.total_return ≤ θ))
    ∧ engine_failure_count paths
        = paths.countP (fun p => p.is_ruin || decide (p.total_return < -20))
          + paths.countP (fun p => p.is_ruin && decide (p.total_return < -20)) := by
  refine ⟨?_, ?_, ?_⟩
  · unfold premortem_n_failed premortem_n_success
    rw [← List.countP_eq_length_filter, ← List.countP_eq_length_filter]
    induction paths with
    | nil => simp
    | cons p t ih =>
      by_cases hp : is_failed θ p <;> simp [List.countP_cons, hp] <;> omega
  · unfold premortem_n_failed
    rw [← List.countP_eq_length_filter]
    rfl
  · unfold engine_failure_count
    rw [← List.countP_eq_length_filter, ← List.countP_eq_length_filter]
    exact countP_add_countP _ _ paths

/-- C7 counterexample: a single path that is both ruined and below the
return threshold is reported twice by the engine's failure_count, which
therefore differs from the number of paths satisfying the failure
predicate (here 1). -/
theorem engine_failure_count_double_counts_cex :
    engine_failure_count [⟨100, -50, -150, 0, true, []⟩] = 2
    ∧ premortem_n_failed (-20) [⟨100, -50, -150, 0, true, []⟩] = 1
    ∧ engine_failure_count [⟨100, -50, -150, 0, true, []⟩]
        ≠ premortem_n_failed (-20) [⟨100, -50, -150, 0, true, []⟩] := by
  refine ⟨?_, ?_, ?_⟩ <;>
    simp [engine_failure_count, premortem_n_failed, is_failed] <;> norm_num

/-- C2 (amended): after process_pipeline_closings no converting deal with
close_month at or before the current month remains in the pipeline, each
such deal adds exactly one customer (the returned count is their number),
and non-converting deals are never removed from the pipeline. -/
theorem process_pipeline_closings_spec (state : BusinessState) (month : ℕ) :
    (∀ d ∈ (process_pipeline_closings state month).1.pipeline,
        ¬(d.close_month ≤ month ∧ d.will_convert = true))
    ∧ (process_pipeline_closings state month).1.customers
        = state.customers
          + (state.pipeline.filter
              (fun d => decide (d.close_month ≤ month) && d.will_convert)).length
    ∧ (process_pipeline_closings state month).2
        = (state.pipeline.filter
            (fun d => decide (d.close_month ≤ month) && d.will_convert)).length
    ∧ (∀ d ∈ state.pipeline, d.will_convert = false →
        d ∈ (process_pipeline_closings state month).1.pipeline) := by
  refine ⟨?_, rfl, rfl, ?_⟩
  · intro d hd hc
    have hmem := List.of_mem_filter hd
    rcases Bool.or_eq_true_iff.mp hmem with h | h
    · exact absurd hc.1 (not_le.mpr (of_decide_eq_true h))
    · rw [hc.2] at h
      simp at h
  · intro d hd hw
    refine List.mem_filter.mpr ⟨hd, ?_⟩
    simp [hw]

/-- C2 counterexample: a non-converting deal whose close month has passed
(close month 3, current month 5) stays in the pipeline after
process_pipeline_closings, so a deal with close_month at or before the
month does remain. -/
theorem process_pipeline_closings_nonconverting_cex :
    (process_pipeline_closings
        ⟨0, 0, [⟨0, 3, false, 0, false⟩], 0, 0, -1⟩ 5).1.pipeline
      = [⟨0, 3, false, 0, false⟩]
    ∧ ((process_pipeline_closings
        ⟨0, 0, [⟨0, 3, false, 0, false⟩], 0, 0, -1⟩ 5).1.pipeline.any
          (fun d => decide (d.close_month ≤ 5))) = true := by
  refine ⟨rfl, rfl⟩

/-- C1 (amended): within a month of PathSimulator.simulate the order is
arrivals, then recoveries, then the operations consume the multipliers:
the multipliers passed to the business operations of month m are those of
the active shocks after the month-m arrivals have been appended and the
month-m recovery step has already been applied to them, combined with the
regime multipliers channel by channel. -/
theorem month_risk_step_recoveries_before_operations {α : Type}
    (active arrivals : List ActiveShock) (recovers : ℕ → Bool)
    (regime_mult : ImpactType → ℚ) (operations : (ImpactType → ℚ) → α) :
    month_risk_step active arrivals recovers regime_mult operations
      = (operations (fun ch => regime_mult ch
            * get_multipliers (process_recoveries (active ++ arrivals) recovers 0) ch),
         process_recoveries (active ++ arrivals) recovers 0)
    ∧ (∀ start, process_recoveries (active ++ arrivals) (fun _ => false) start
        = (active ++ arrivals).map
            (fun s => { s with severity := s.severity + (1 - s.severity) * (2/10) })) := by
  refine ⟨rfl, ?_⟩
  intro start
  induction active ++ arrivals generalizing start with
  | nil => rfl
  | cons s rest ih =>
    simp only [process_recoveries, List.map_cons, if_false, Bool.false_eq_true,
      reduceIte]
    rw [ih]

/-- C1 counterexample: a shock arriving in the current month is already
partially recovered (severity drifted from 0.5 to 0.6) before the business
operations read the multipliers, so the multiplier consumed by the
operations differs from the pre-recovery multiplier of the arrivals. -/
theorem month_risk_step_claimed_order_cex :
    (month_risk_step [] [⟨"policy_shock", ImpactType.adoption, 1/2, 3/10, 0⟩]
        (fun _ => false) (fun _ => 1) (fun m => m ImpactType.adoption)).1
      ≠ get_multipliers ([] ++ [⟨"policy_shock", ImpactType.adoption, 1/2, 3/10, 0⟩])
          ImpactType.adoption := by
  simp [month_risk_step, process_recoveries, get_multipliers]
  norm_num

/-- Entries of the simulated equity curve inside the horizon are the
simulated capital values. -/
theorem simulate_equity_curve_getD (initial : ℚ) (net_flow : ℕ → ℚ) (H k : ℕ)
    (hk : k < H + 1) :
    (simulate_equity_curve initial net_flow H).getD k 0
      = simulate_capital initial net_flow k := by
  unfold simulate_equity_curve
  rw [List.getD_eq_getElem _ _ (by simpa using hk)]
  simp

/-- Entries of the simulated equity curve beyond the horizon default to 0. -/
theorem simulate_equity_curve_getD_past (initial : ℚ) (net_flow : ℕ → ℚ) (H k : ℕ)
    (hk : ¬ k < H + 1) :
    (simulate_equity_curve initial net_flow H).getD k 0 = 0 := by
  unfold simulate_equity_curve
  rw [List.getD_eq_default]
  simpa using hk

/-- Once the simulated capital is nonpositive at an executed month, the
ruin short-circuit pads every later entry with the same value, provided
the initial capital is positive (so that the nonpositive entry was indeed
produced by an executed month). -/
theorem simulate_capital_absorbing (initial : ℚ) (net_flow : ℕ → ℚ) (t : ℕ)
    (h0 : 0 < initial) (ht : simulate_capital initial net_flow t ≤ 0) :
    ∀ t₁, t ≤ t₁ → simulate_capital initial net_flow t₁ = simulate_capital initial net_flow t := by
  have hstep : ∀ u, 1 ≤ u → simulate_capital initial net_flow u ≤ 0 →
      simulate_capital initial net_flow (u + 1) = simulate_capital initial net_flow u := by
    intro u hu hc
    rcases Nat.exists_eq_add_of_le hu with ⟨k, hk⟩
    subst hk
    rw [Nat.add_comm 1 k] at hc ⊢
    show simulate_capital initial net_flow (k + 2)
      = simulate_capital initial net_flow (k + 1)
    simp only [simulate_capital]
    rw [if_pos hc]
  have ht1 : 1 ≤ t := by
    by_contra h
    interval_cases t
    · exact absurd ht (not_le.mpr h0)
  intro t₁ htt
  induction t₁, htt using Nat.le_induction with
  | base => rfl
  | succ u hu ih =>
    have hu1 : 1 ≤ u := le_trans ht1 hu
    rw [hstep u hu1 (ih ▸ ht), ih]

/-- C4 (amended): over a corpus whose paths were produced by the simulator
from a positive initial capital, the survival curve is non-increasing,
because the ruin short-circuit makes nonpositive capital absorbing: once a
simulated capital entry is nonpositive, every later entry equals it.  (With
a nonpositive initial capital, month 0 still executes and equity can turn
positive at index 1, so the restriction to positive initial capital is
necessary.) -/
theorem survival_nonincreasing_of_positive_initial
    (paths : List PathResult) (H : ℕ)
    (hcorpus : ∀ p ∈ paths, ∃ initial net_flow, 0 < initial
        ∧ p.equity_curve = simulate_equity_curve initial net_flow H)
    (t : ℕ) :
    survival_fraction paths (t + 1) ≤ survival_fraction paths t
    ∧ ∀ initial net_flow t₀ t₁, 0 < initial → t₀ ≤ t₁ →
        simulate_capital initial net_flow t₀ ≤ 0 →
        simulate_capital initial net_flow t₁ = simulate_capital initial net_flow t₀ := by
  constructor
  · unfold survival_fraction
    have hcount :
        (paths.filter (fun p => decide (0 < p.equity_curve.getD (t + 1) 0))).length
          ≤ (paths.filter (fun p => decide (0 < p.equity_curve.getD t 0))).length := by
      rw [← List.countP_eq_length_filter, ← List.countP_eq_length_filter]
      refine List.countP_mono_left ?_
      intro p hp hpos
      rcases hcorpus p hp with ⟨initial, net_flow, hinit, hcurve⟩
      have hpos1 : 0 < p.equity_curve.getD (t + 1) 0 := of_decide_eq_true hpos
      by_cases hk : t + 1 < H + 1
      · rw [hcurve, simulate_equity_curve_getD _ _ _ _ hk] at hpos1
        have hkt : t < H + 1 := Nat.lt_of_succ_lt hk
        rw [hcurve, simulate_equity_curve_getD _ _ _ _ hkt]
        refine decide_eq_true ?_
        by_contra hle
        have hle0 : simulate_capital initial net_flow t ≤ 0 := not_lt.mp hle
        have := simulate_capital_absorbing initial net_flow t hinit hle0 (t + 1)
          (Nat.le_succ t)
        rw [this] at hpos1
        exact absurd hpos1 (not_lt.mpr hle0)
      · rw [hcurve, simulate_equity_curve_getD_past _ _ _ _ hk] at hpos1
        exact absurd hpos1 (lt_irrefl 0)
    rcases Nat.eq_zero_or_pos paths.length with hlen | hlen
    · rw [hlen]
      simp
    · have hlenq : (0 : ℚ) < (paths.length : ℚ) := by exact_mod_cast hlen
      exact (div_le_div_iff_of_pos_right hlenq).mpr (by exact_mod_cast hcount)
  · intro initial net_flow t₀ t₁ hinit ht hle
    exact simulate_capital_absorbing initial net_flow t₀ hinit hle t₁ ht

/-- C4 witness: a one-path corpus produced by the simulator from initial
capital 100 with constant net flow -30 over horizon 2 satisfies the
hypotheses, and the survival curve does not increase from month 0 to 1. -/
theorem survival_nonincreasing_witness :
    (∀ p ∈ [(⟨100, 40, -60, 0, false,
          simulate_equity_curve 100 (fun _ => -30) 2⟩ : PathResult)],
        ∃ initial net_flow, 0 < initial
          ∧ p.equity_curve = simulate_equity_curve initial net_flow 2)
    ∧ (survival_fraction [(⟨100, 40, -60, 0, false,
          simulate_equity_curve 100 (fun _ => -30) 2⟩ : PathResult)] 1
        ≤ survival_fraction [(⟨100, 40, -60, 0, false,
          simulate_equity_curve 100 (fun _ => -30) 2⟩ : PathResult)] 0
      ∧ ∀ initial net_flow t₀ t₁, 0 < initial → t₀ ≤ t₁ →
          simulate_capital initial net_flow t₀ ≤ 0 →
          simulate_capital initial net_flow t₁ = simulate_capital initial net_flow t₀) := by
  have hcorpus : ∀ p ∈ [(⟨100, 40, -60, 0, false,
      simulate_equity_curve 100 (fun _ => -30) 2⟩ : PathResult)],
      ∃ initial net_flow, 0 < initial
        ∧ p.equity_curve = simulate_equity_curve initial net_flow 2 := by
    intro p hp
    rw [List.mem_singleton] at hp
    subst hp
    exact ⟨100, fun _ => -30, by norm_num, rfl⟩
  exact ⟨hcorpus,
    survival_nonincreasing_of_positive_initial _ 2 hcorpus 0⟩

/-- C4 counterexample: a path simulated from nonpositive initial capital
-5 with development-phase net flow of a negative dev burn (-100) has
equity curve (-5, 95, 195): its equity entry at index 0 is nonpositive yet
the next entry differs, and the survival curve of that one-path corpus
strictly increases from month 0 to month 1. -/
theorem survival_increasing_cex :
    (simulate_equity_curve (-5) (fun _ => dev_phase_net_flow (-100) 1) 2).getD 0 0 ≤ 0
    ∧ (simulate_equity_curve (-5) (fun _ => dev_phase_net_flow (-100) 1) 2).getD 1 0
        ≠ (simulate_equity_curve (-5) (fun _ => dev_phase_net_flow (-100) 1) 2).getD 0 0
    ∧ survival_fraction [(⟨-5, 195, 0, 0, false,
          simulate_equity_curve (-5) (fun _ => dev_phase_net_flow (-100) 1) 2⟩ : PathResult)] 0
      < survival_fraction [(⟨-5, 195, 0, 0, false,
          simulate_equity_curve (-5) (fun _ => dev_phase_net_flow (-100) 1) 2⟩ : PathResult)] 1 := by
  refine ⟨?_, ?_, ?_⟩ <;>
    norm_num [simulate_equity_curve, simulate_capital, survival_fraction,
      dev_phase_net_flow, compute_costs, List.range_succ]

/-- The sort behind npPercentile is sorted. -/
theorem npSort_sorted (l : List ℚ) : List.Sorted (· ≤ ·) (npSort l) :=
  List.sorted_insertionSort _ l

/-- The sort behind npPercentile is a permutation of the data. -/
theorem npSort_perm (l : List ℚ) : (npSort l).Perm l :=
  List.perm_insertionSort _ l

/-- Indexing with default into a sorted list is monotone on in-range
indices. -/
theorem sorted_getD_mono {s : List ℚ} (hs : List.Sorted (· ≤ ·) s) {i j : ℕ}
    (hij : i ≤ j) (hj : j < s.length) : s.getD i 0 ≤ s.getD j 0 := by
  have hi : i < s.length := Nat.lt_of_le_of_lt hij hj
  rw [List.getD_eq_getElem _ _ hi, List.getD_eq_getElem _ _ hj]
  rcases Nat.eq_or_lt_of_le hij with heq | hlt
  · subst heq
    exact le_refl _
  · have := List.pairwise_iff_get.mp hs ⟨i, hi⟩ ⟨j, hj⟩ hlt
    simpa using this

/-- The integer part used by the percentile interpolation stays at or
below the position. -/
theorem floor_toNat_cast_le {p : ℚ} (hp : 0 ≤ p) : ((⌊p⌋.toNat : ℚ)) ≤ p := by
  have h0 : (0 : ℤ) ≤ ⌊p⌋ := Int.le_floor.mpr (by exact_mod_cast hp)
  have h1 : ((⌊p⌋.toNat : ℚ)) = ((⌊p⌋ : ℤ) : ℚ) := by exact_mod_cast Int.toNat_of_nonneg h0
  rw [h1]
  exact Int.floor_le p

/-- The position is below its integer part plus one. -/
theorem lt_floor_toNat_cast_add_one {p : ℚ} (hp : 0 ≤ p) :
    p < ((⌊p⌋.toNat : ℚ)) + 1 := by
  have h0 : (0 : ℤ) ≤ ⌊p⌋ := Int.le_floor.mpr (by exact_mod_cast hp)
  have h1 : ((⌊p⌋.toNat : ℚ)) = ((⌊p⌋ : ℤ) : ℚ) := by exact_mod_cast Int.toNat_of_nonneg h0
  rw [h1]
  exact Int.lt_floor_add_one p

/-- Linear interpolation into a sorted list never exceeds the last
element. -/
theorem interpAt_le_getD_last {s : List ℚ} (hs : List.Sorted (· ≤ ·) s)
    {p : ℚ} (hp : 0 ≤ p) : interpAt s p ≤ s.getD (s.length - 1) 0 := by
  unfold interpAt
  by_cases h1 : (⌊p⌋).toNat + 1 < s.length
  · rw [if_pos h1]
    have hfrac1 : p - ((⌊p⌋.toNat : ℚ)) ≤ 1 := by
      have := lt_floor_toNat_cast_add_one hp
      linarith
    have hd : 0 ≤ s.getD ((⌊p⌋).toNat + 1) 0 - s.getD (⌊p⌋).toNat 0 := by
      have := sorted_getD_mono hs (Nat.le_succ (⌊p⌋).toNat) h1
      linarith
    have hlast : s.getD ((⌊p⌋).toNat + 1) 0 ≤ s.getD (s.length - 1) 0 :=
      sorted_getD_mono hs (by omega) (by omega)
    have hmul := mul_le_mul_of_nonneg_right hfrac1 hd
    linarith
  · rw [if_neg h1]

/-- Linear interpolation into a sorted list is monotone in the position on
nonnegative positions. -/
theorem interpAt_mono {s : List ℚ} (hs : List.Sorted (· ≤ ·) s) {p q : ℚ}
    (hp : 0 ≤ p) (hpq : p ≤ q) : interpAt s p ≤ interpAt s q := by
  have hq : 0 ≤ q := le_trans hp hpq
  have hij : (⌊p⌋).toNat ≤ (⌊q⌋).toNat := Int.toNat_le_toNat (Int.floor_le_floor hpq)
  have hfp0 : 0 ≤ p - ((⌊p⌋.toNat : ℚ)) := sub_nonneg.mpr (floor_toNat_cast_le hp)
  have hfp1 : p - ((⌊p⌋.toNat : ℚ)) ≤ 1 := by
    have := lt_floor_toNat_cast_add_one hp
    linarith
  have hfq0 : 0 ≤ q - ((⌊q⌋.toNat : ℚ)) := sub_nonneg.mpr (floor_toNat_cast_le hq)
  unfold interpAt
  by_cases h1 : (⌊p⌋).toNat + 1 < s.length
  · rw [if_pos h1]
    by_cases h2 : (⌊q⌋).toNat + 1 < s.length
    · rw [if_pos h2]
      rcases Nat.eq_or_lt_of_le hij with heq | hlt
      · rw [← heq]
        have hd : 0 ≤ s.getD ((⌊p⌋).toNat + 1) 0 - s.getD (⌊p⌋).toNat 0 := by
          have := sorted_getD_mono hs (Nat.le_succ (⌊p⌋).toNat) h1
          linarith
        have hfrac : p - ((⌊p⌋.toNat : ℚ)) ≤ q - ((⌊p⌋.toNat : ℚ)) := by linarith
        have := mul_le_mul_of_nonneg_right hfrac hd
        linarith
      · have hd_p : 0 ≤ s.getD ((⌊p⌋).toNat + 1) 0 - s.getD (⌊p⌋).toNat 0 := by
          have := sorted_getD_mono hs (Nat.le_succ (⌊p⌋).toNat) h1
          linarith
        have hd_q : 0 ≤ s.getD ((⌊q⌋).toNat + 1) 0 - s.getD (⌊q⌋).toNat 0 := by
          have := sorted_getD_mono hs (Nat.le_succ (⌊q⌋).toNat) h2
          linarith
        have hchain : s.getD ((⌊p⌋).toNat + 1) 0 ≤ s.getD (⌊q⌋).toNat 0 :=
          sorted_getD_mono hs hlt (by omega)
        have hup := mul_le_mul_of_nonneg_right hfp1 hd_p
        have hlow := mul_nonneg hfq0 hd_q
        linarith
    · rw [if_neg h2]
      have hd_p : 0 ≤ s.getD ((⌊p⌋).toNat + 1) 0 - s.getD (⌊p⌋).toNat 0 := by
        have := sorted_getD_mono hs (Nat.le_succ (⌊p⌋).toNat) h1
        linarith
      have hlast : s.getD ((⌊p⌋).toNat + 1) 0 ≤ s.getD (s.length - 1) 0 :=
        sorted_getD_mono hs (by omega) (by omega)
      have hup := mul_le_mul_of_nonneg_right hfp1 hd_p
      linarith
  · rw [if_neg h1]
    have h2 : ¬ ((⌊q⌋).toNat + 1 < s.length) := by omega
    rw [if_neg h2]

/-- The percentile with linear interpolation is monotone in the requested
quantile. -/
theorem npPercentile_mono (l : List ℚ) {q₁ q₂ : ℚ} (h0 : 0 ≤ q₁)
    (h12 : q₁ ≤ q₂) : npPercentile l q₁ ≤ npPercentile l q₂ := by
  unfold npPercentile
  rcases l with _ | ⟨a, t⟩
  · simp [interpAt, npSort, List.insertionSort]
  · have hn1 : (0 : ℚ) ≤ ((a :: t).length : ℚ) - 1 := by
      have : 1 ≤ (a :: t).length := List.length_pos.mpr (by simp)
      have : (1 : ℚ) ≤ ((a :: t).length : ℚ) := by exact_mod_cast this
      linarith
    refine interpAt_mono (npSort_sorted _) ?_ ?_
    · exact mul_nonneg (div_nonneg h0 (by norm_num)) hn1
    · exact mul_le_mul_of_nonneg_right
        ((div_le_div_iff_of_pos_right (by norm_num)).mpr h12) hn1

/-- The percentile of a nonempty list never exceeds the last element of
the sorted data. -/
theorem npPercentile_le_sorted_last (l : List ℚ) {q : ℚ} (h0 : 0 ≤ q)
    (hne : l ≠ []) :
    npPercentile l q ≤ (npSort l).getD ((npSort l).length - 1) 0 := by
  unfold npPercentile
  refine interpAt_le_getD_last (npSort_sorted l) ?_
  have : 1 ≤ l.length := List.length_pos.mpr hne
  have h1 : (1 : ℚ) ≤ (l.length : ℚ) := by exact_mod_cast this
  exact mul_nonneg (div_nonneg h0 (by norm_num)) (by linarith)

/-- The last element of the sorted data belongs to the data. -/
theorem npSort_last_mem (l : List ℚ) (hne : l ≠ []) :
    (npSort l).getD ((npSort l).length - 1) 0 ∈ l := by
  have hlen : (npSort l).length = l.length := (npSort_perm l).length_eq
  have hpos : 0 < l.length := List.length_pos.mpr hne
  have hlt : (npSort l).length - 1 < (npSort l).length := by omega
  rw [List.getD_eq_getElem _ _ hlt]
  exact (npSort_perm l).mem_iff.mp (List.getElem_mem hlt)

/-- A lower bound on all elements bounds the sum from below by the bound
times the length. -/
theorem mul_length_le_sum {l : List ℚ} {t : ℚ} (h : ∀ x ∈ l, t ≤ x) :
    t * l.length ≤ l.sum := by
  induction l with
  | nil => simp
  | cons a tl ih =>
    have ha := h a (List.mem_cons_self a tl)
    have htl := ih (fun x hx => h x (List.mem_cons_of_mem a hx))
    simp only [List.sum_cons, List.length_cons]
    push_cast
    have hring : t * ((tl.length : ℚ) + 1) = t * tl.length + t := by ring
    rw [hring]
    linarith

/-- The mean of a nonempty list of values all at least t is at least t. -/
theorem npMean_ge {l : List ℚ} {t : ℚ} (hne : l ≠ []) (h : ∀ x ∈ l, t ≤ x) :
    t ≤ npMean l := by
  unfold npMean
  have hlen : (0 : ℚ) < (l.length : ℚ) := by
    have : 0 < l.length := List.length_pos.mpr hne
    exact_mod_cast this
  rw [le_div_iff₀ hlen]
  exact mul_length_le_sum h

/-- C5: for a nonempty corpus, CVaR at a confidence level is at least VaR
at the same level, VaR is monotone in the confidence level, and in
particular VaR at 95 percent is at most VaR at 99 percent. -/
theorem cvar_ge_var_and_var_monotone (paths : List PathResult) (c₁ c₂ : ℚ)
    (hpaths : paths ≠ []) (hc₁ : 0 ≤ c₁) (hc₁₂ : c₁ ≤ c₂) :
    compute_var paths c₁ ≤ compute_cvar paths c₁
    ∧ compute_var paths c₁ ≤ compute_var paths c₂
    ∧ compute_var paths (95/100) ≤ compute_var paths (99/100) := by
  have hlne : losses_of paths ≠ [] := by
    unfold losses_of
    simpa using hpaths
  refine ⟨?_, ?_, ?_⟩
  · unfold compute_var compute_cvar
    have hq0 : (0 : ℚ) ≤ c₁ * 100 := mul_nonneg hc₁ (by norm_num)
    have hmax_mem : (npSort (losses_of paths)).getD ((npSort (losses_of paths)).length - 1) 0
        ∈ losses_of paths := npSort_last_mem _ hlne
    have ht_le : npPercentile (losses_of paths) (c₁ * 100)
        ≤ (npSort (losses_of paths)).getD ((npSort (losses_of paths)).length - 1) 0 :=
      npPercentile_le_sorted_last _ hq0 hlne
    have hmem_filter : (npSort (losses_of paths)).getD ((npSort (losses_of paths)).length - 1) 0
        ∈ (losses_of paths).filter
            (fun x => decide (npPercentile (losses_of paths) (c₁ * 100) ≤ x)) :=
      List.mem_filter.mpr ⟨hmax_mem, decide_eq_true ht_le⟩
    refine npMean_ge (List.ne_nil_of_mem hmem_filter) ?_
    intro x hx
    exact of_decide_eq_true (List.mem_filter.mp hx).2
  · unfold compute_var
    exact npPercentile_mono _ (mul_nonneg hc₁ (by norm_num))
      (mul_le_mul_of_nonneg_right hc₁₂ (by norm_num))
  · unfold compute_var
    exact npPercentile_mono _ (by norm_num) (by norm_num)

/-- C5 witness: the theorem applied to a concrete one-path corpus at the
confidence levels 0 and 1. -/
theorem cvar_ge_var_witness :
    ([(⟨100, 40, 60, 0, false, []⟩ : PathResult)] : List PathResult) ≠ []
    ∧ (0 : ℚ) ≤ 0 ∧ (0 : ℚ) ≤ 1
    ∧ (compute_var [(⟨100, 40, 60, 0, false, []⟩ : PathResult)] 0
        ≤ compute_cvar [(⟨100, 40, 60, 0, false, []⟩ : PathResult)] 0
      ∧ compute_var [(⟨100, 40, 60, 0, false, []⟩ : PathResult)] 0
        ≤ compute_var [(⟨100, 40, 60, 0, false, []⟩ : PathResult)] 1
      ∧ compute_var [(⟨100, 40, 60, 0, false, []⟩ : PathResult)] (95/100)
        ≤ compute_var [(⟨100, 40, 60, 0, false, []⟩ : PathResult)] (99/100)) :=
  ⟨by simp, by norm_num, by norm_num,
    cvar_ge_var_and_var_monotone _ 0 1 (by simp) (by norm_num) (by norm_num)⟩

/-- C10: for a parameter column processed by the tornado analysis (the
source skips columns with np.std below 1e-10, here expressed on the
variance), the reported swing is nonnegative and the reported asymmetry
has absolute value at most 1. -/
theorem tornado_swing_asymmetry_bounds (x outputs : List ℚ) (hne : x ≠ [])
    (hvar : ¬ npVariance x < (1 / 10 ^ 10) ^ 2) :
    0 ≤ (compute_tornado_item x outputs).swing
    ∧ |(compute_tornado_item x outputs).asymmetry| ≤ 1 := by
  have hlow_base : npPercentile x 10 ≤ npPercentile x 50 :=
    npPercentile_mono x (by norm_num) (by norm_num)
  have hbase_high : npPercentile x 50 ≤ npPercentile x 90 :=
    npPercentile_mono x (by norm_num) (by norm_num)
  have key : ∀ b c lo md hi : ℚ, lo ≤ md → md ≤ hi →
      |(c + b * hi - (c + b * md) - (c + b * md - (c + b * lo)))
          / (|c + b * hi - (c + b * lo)| + 1 / 10 ^ 10)| ≤ 1 := by
    intro b c lo md hi hlm hmh
    have h1 : c + b * hi - (c + b * md) - (c + b * md - (c + b * lo))
        = b * (hi + lo - 2 * md) := by ring
    have h2 : c + b * hi - (c + b * lo) = b * (hi - lo) := by ring
    have hnum : |c + b * hi - (c + b * md) - (c + b * md - (c + b * lo))|
        ≤ |c + b * hi - (c + b * lo)| := by
      rw [h1, h2, abs_mul, abs_mul]
      refine mul_le_mul_of_nonneg_left ?_ (abs_nonneg b)
      rw [abs_of_nonneg (show (0:ℚ) ≤ hi - lo by linarith), abs_le]
      constructor <;> linarith
    have hden : (0:ℚ) < |c + b * hi - (c + b * lo)| + 1 / 10 ^ 10 := by positivity
    rw [abs_div, abs_of_pos hden, div_le_one hden]
    have heps : (0:ℚ) < 1 / 10 ^ 10 := by norm_num
    linarith
  exact ⟨abs_nonneg _,
    key (linregress_slope x outputs) (linregress_intercept x outputs)
      (npPercentile x 10) (npPercentile x 50) (npPercentile x 90)
      hlow_base hbase_high⟩

/-- C10 witness: the theorem applied to the concrete column (0, 1) with
outputs (0, 0); the column variance is 1/4, above the degeneracy guard. -/
theorem tornado_bounds_witness :
    ([(0:ℚ), 1] : List ℚ) ≠ []
    ∧ ¬ npVariance [(0:ℚ), 1] < (1 / 10 ^ 10) ^ 2
    ∧ (0 ≤ (compute_tornado_item [(0:ℚ), 1] [(0:ℚ), 0]).swing
       ∧ |(compute_tornado_item [(0:ℚ), 1] [(0:ℚ), 0]).asymmetry| ≤ 1) :=
  ⟨by simp, by norm_num [npVariance, npMean],
    tornado_swing_asymmetry_bounds _ _ (by simp)
      (by norm_num [npVariance, npMean])⟩

/-- The inverse-CDF triangular draw stays in the support for a uniform
input in the unit interval and ordered parameters with positive width. -/
theorem triangular_inv_cdf_mem (d : TriangularDistribution) (u : ℝ)
    (hac : d.min_val ≤ d.mode) (hcb : d.mode ≤ d.max_val)
    (hlt : d.min_val < d.max_val) (hu0 : 0 ≤ u) (hu1 : u ≤ 1) :
    (d.min_val : ℝ) ≤ triangular_inv_cdf d u
    ∧ triangular_inv_cdf d u ≤ (d.max_val : ℝ) := by
  unfold triangular_inv_cdf
  dsimp only
  have hacR : ((d.min_val : ℝ)) ≤ ((d.mode : ℝ)) := by exact_mod_cast hac
  have hcbR : ((d.mode : ℝ)) ≤ ((d.max_val : ℝ)) := by exact_mod_cast hcb
  have hA : (0 : ℝ) < (d.max_val : ℝ) - (d.min_val : ℝ) := by
    have : (0 : ℚ) < d.max_val - d.min_val := by linarith
    exact_mod_cast this
  by_cases hbr : u ≤ ((d.mode : ℝ) - (d.min_val : ℝ)) / ((d.max_val : ℝ) - (d.min_val : ℝ))
  · rw [if_pos hbr]
    constructor
    · have := Real.sqrt_nonneg (u * ((d.max_val : ℝ) - d.min_val) * ((d.mode : ℝ) - d.min_val))
      linarith
    · have h1 : u * ((d.max_val : ℝ) - d.min_val) ≤ (d.mode : ℝ) - d.min_val :=
        (le_div_iff₀ hA).mp hbr
      have h2 : u * ((d.max_val : ℝ) - d.min_val) * ((d.mode : ℝ) - d.min_val)
          ≤ ((d.mode : ℝ) - d.min_val) ^ 2 := by nlinarith
      have h3 : Real.sqrt (u * ((d.max_val : ℝ) - d.min_val) * ((d.mode : ℝ) - d.min_val))
          ≤ (d.mode : ℝ) - d.min_val := by
        calc Real.sqrt (u * ((d.max_val : ℝ) - d.min_val) * ((d.mode : ℝ) - d.min_val))
            ≤ Real.sqrt (((d.mode : ℝ) - d.min_val) ^ 2) := Real.sqrt_le_sqrt h2
          _ = (d.mode : ℝ) - d.min_val := Real.sqrt_sq (by linarith)
      linarith
  · rw [if_neg hbr]
    push_neg at hbr
    constructor
    · have h1 : (d.mode : ℝ) - d.min_val < u * ((d.max_val : ℝ) - d.min_val) :=
        (div_lt_iff₀ hA).mp hbr
      have h2 : (1 - u) * ((d.max_val : ℝ) - d.min_val) ≤ (d.max_val : ℝ) - d.mode := by
        nlinarith
      have h3 : (1 - u) * ((d.max_val : ℝ) - d.min_val) * ((d.max_val : ℝ) - d.mode)
          ≤ ((d.max_val : ℝ) - d.mode) ^ 2 := by nlinarith
      have h4 : Real.sqrt ((1 - u) * ((d.max_val : ℝ) - d.min_val) * ((d.max_val : ℝ) - d.mode))
          ≤ (d.max_val : ℝ) - d.mode := by
        calc Real.sqrt ((1 - u) * ((d.max_val : ℝ) - d.min_val) * ((d.max_val : ℝ) - d.mode))
            ≤ Real.sqrt (((d.max_val : ℝ) - d.mode) ^ 2) := Real.sqrt_le_sqrt h3
          _ = (d.max_val : ℝ) - d.mode := Real.sqrt_sq (by linarith)
      linarith
    · have := Real.sqrt_nonneg
        ((1 - u) * ((d.max_val : ℝ) - d.min_val) * ((d.max_val : ℝ) - d.mode))
      linarith

/-- C9: for every valid triangular distribution and uniform draw in the
unit interval, the sample lies in the support; in the degenerate case
(max - min below 1e-10) every sample equals the mode exactly, and a Fixed
value specification is built as the degenerate triangular whose every
sample equals the value. -/
theorem triangular_sample_support (mn md mx : ℚ) (u : ℝ)
    (hmn : mn ≤ md) (hmd : md ≤ mx) (hu0 : 0 ≤ u) (hu1 : u ≤ 1) :
    ((mn : ℝ) ≤ TriangularDistribution.sample ⟨mn, md, mx⟩ u
      ∧ TriangularDistribution.sample ⟨mn, md, mx⟩ u ≤ (mx : ℝ))
    ∧ (mx - mn < 1 / 10 ^ 10 → TriangularDistribution.sample ⟨mn, md, mx⟩ u = (md : ℝ))
    ∧ (∀ v : ℚ, create_distribution (DistributionSpec.fixed v)
          = Except.ok (BaseDistribution.triangular ⟨v, v, v⟩)
        ∧ TriangularDistribution.sample ⟨v, v, v⟩ u = (v : ℝ)) := by
  refine ⟨?_, ?_, ?_⟩
  · unfold TriangularDistribution.sample
    by_cases hdg : TriangularDistribution.is_degenerate ⟨mn, md, mx⟩
    · rw [if_pos hdg]
      exact ⟨by exact_mod_cast hmn, by exact_mod_cast hmd⟩
    · rw [if_neg hdg]
      have hsep : (1 : ℚ) / 10 ^ 10 ≤ mx - mn := by
        unfold TriangularDistribution.is_degenerate at hdg
        simpa using hdg
      exact triangular_inv_cdf_mem ⟨mn, md, mx⟩ u hmn hmd
        (by dsimp only; nlinarith) hu0 hu1
  · intro hlt
    unfold TriangularDistribution.sample
    rw [if_pos]
    unfold TriangularDistribution.is_degenerate
    exact decide_eq_true hlt
  · intro v
    refine ⟨?_, ?_⟩
    · simp [create_distribution, TriangularDistribution.init, Except.map]
    · unfold TriangularDistribution.sample
      rw [if_pos]
      unfold TriangularDistribution.is_degenerate
      apply decide_eq_true
      norm_num

/-- C9 witness: the theorem applied to the triangular distribution with
parameters (0, 1, 2) and the uniform draw one half. -/
theorem triangular_sample_support_witness :
    ((0 : ℚ) ≤ 1 ∧ (1 : ℚ) ≤ 2 ∧ (0 : ℝ) ≤ (1 : ℝ) / 2 ∧ (1 : ℝ) / 2 ≤ 1)
    ∧ ((((0 : ℚ) : ℝ) ≤ TriangularDistribution.sample ⟨0, 1, 2⟩ ((1 : ℝ) / 2)
        ∧ TriangularDistribution.sample ⟨0, 1, 2⟩ ((1 : ℝ) / 2) ≤ ((2 : ℚ) : ℝ))
      ∧ ((2 : ℚ) - 0 < 1 / 10 ^ 10 →
          TriangularDistribution.sample ⟨0, 1, 2⟩ ((1 : ℝ) / 2) = ((1 : ℚ) : ℝ))
      ∧ (∀ v : ℚ, create_distribution (DistributionSpec.fixed v)
            = Except.ok (BaseDistribution.triangular ⟨v, v, v⟩)
          ∧ TriangularDistribution.sample ⟨v, v, v⟩ ((1 : ℝ) / 2) = (v : ℝ))) :=
  ⟨⟨by norm_num, by norm_num, by norm_num, by norm_num⟩,
    triangular_sample_support 0 1 2 ((1 : ℝ) / 2)
      (by norm_num) (by norm_num) (by norm_num) (by norm_num)⟩

/-- C3: the per-path construction of _run_single_path is insensitive to
the configured sales-cycle and pricing distributions except through the
sampled values: _sample_parameters never reads the sales_cycle entry of
the distribution table; the business model is unchanged when the
sales_cycle_months and contract specifications of the request are replaced
(given the same sampled parameters); the sales-cycle distribution is
hardcoded to Gamma.from_mean_cv(5.0, 0.3); and the contract distributions
are LogNormal.from_mean_cv of the per-path sampled means with cv 0.1. -/
theorem run_single_path_hardcoded_distributions
    (input : SimulationInput) (params : SampledParameters)
    (dists : SimDistributions) (d₁ d₂ d₃ d₄ : DistributionSpec)
    (dist : BaseDistribution) (draw : BaseDistribution → ℕ → ℚ) (share : ℚ) :
    sample_parameters { dists with sales_cycle := dist } draw share
      = sample_parameters dists draw share
    ∧ build_business_model
        { input with
          pricing := { input.pricing with
            contract_small := d₁, contract_medium := d₂, contract_large := d₃ },
          sales := { input.sales with sales_cycle_months := d₄ } } params
      = build_business_model input params
    ∧ (∀ bm, build_business_model input params = Except.ok bm →
        GammaDistribution.from_mean_cv 5 (3/10) = Except.ok bm.sales_cycle_dist)
    ∧ (∀ bm, build_business_model input params = Except.ok bm →
        ∃ s m l, LogNormalDistribution.from_mean_cv params.contract_small (1/10) = Except.ok s
          ∧ LogNormalDistribution.from_mean_cv params.contract_medium (1/10) = Except.ok m
          ∧ LogNormalDistribution.from_mean_cv params.contract_large (1/10) = Except.ok l
          ∧ bm.contract_distributions = [("small", s), ("medium", m), ("large", l)]) := by
  have hbind_err : ∀ {α : Type} (e : String) (f : α → Except String BusinessModel),
      ((Except.error e : Except String α) >>= f) = Except.error e := fun _ _ => rfl
  have hbind_ok : ∀ {α : Type} (a : α) (f : α → Except String BusinessModel),
      ((Except.ok a : Except String α) >>= f) = f a := fun _ _ => rfl
  refine ⟨rfl, rfl, ?_, ?_⟩
  · intro bm hbm
    unfold build_business_model at hbm
    rcases hS : LogNormalDistribution.from_mean_cv params.contract_small (1/10) with eS | s <;>
      rw [hS] at hbm
    · rw [hbind_err] at hbm
      exact Except.noConfusion hbm
    rcases hM : LogNormalDistribution.from_mean_cv params.contract_medium (1/10) with eM | m <;>
      rw [hM] at hbm
    · rw [hbind_ok, hbind_err] at hbm
      exact Except.noConfusion hbm
    rcases hL : LogNormalDistribution.from_mean_cv params.contract_large (1/10) with eL | l <;>
      rw [hL] at hbm
    · rw [hbind_ok, hbind_ok, hbind_err] at hbm
      exact Except.noConfusion hbm
    rw [hbind_ok, hbind_ok, hbind_ok] at hbm
    rcases hG : GammaDistribution.from_mean_cv 5 (3/10) with eG | g <;>
      rw [hG] at hbm
    · rw [hbind_err] at hbm
      exact Except.noConfusion hbm
    rw [hbind_ok] at hbm
    simp only [pure, Except.pure, Except.ok.injEq] at hbm
    subst hbm
    rfl
  · intro bm hbm
    unfold build_business_model at hbm
    rcases hS : LogNormalDistribution.from_mean_cv params.contract_small (1/10) with eS | s <;>
      rw [hS] at hbm
    · rw [hbind_err] at hbm
      exact Except.noConfusion hbm
    rcases hM : LogNormalDistribution.from_mean_cv params.contract_medium (1/10) with eM | m <;>
      rw [hM] at hbm
    · rw [hbind_ok, hbind_err] at hbm
      exact Except.noConfusion hbm
    rcases hL : LogNormalDistribution.from_mean_cv params.contract_large (1/10) with eL | l <;>
      rw [hL] at hbm
    · rw [hbind_ok, hbind_ok, hbind_err] at hbm
      exact Except.noConfusion hbm
    rw [hbind_ok, hbind_ok, hbind_ok] at hbm
    rcases hG : GammaDistribution.from_mean_cv 5 (3/10) with eG | g <;>
      rw [hG] at hbm
    · rw [hbind_err] at hbm
      exact Except.noConfusion hbm
    rw [hbind_ok] at hbm
    simp only [pure, Except.pure, Except.ok.injEq] at hbm
    subst hbm
    exact ⟨s, m, l, rfl, rfl, rfl, rfl⟩

end PijarDSS
